import Mathlib

/-!
Verification development for the nonlinear-objective core of polyfem:
the sparse-matrix assembly cache (`src/utils/MatrixUtils.cpp`,
`polyfem::SpareMatrixCache`) and the nonlinear problem object
(`src/solver/NLProblem.cpp`, `polyfem::NLProblem`).

Modelling conventions:
- `double` scalars are modelled exactly: by `ℤ` in the assembly cache
  (the cache only ever adds and copies values, so an exact additive model
  is faithful), and by `ℚ` in the nonlinear problem (which divides by
  `dt` and by `2`).
- Eigen column-major sparse matrices are modelled by their compressed
  storage (`CSC`): outer (per-column start) indices, inner (row) indices
  and the flat value array, which is exactly the data the cache reuses.
- The external collaborators (elastic assembler, rhs assembler, mass
  matrix, ipc contact module) are fields of a read-only context `Ctx`;
  the mutable members of `NLProblem` form the state `NLState`, and the
  member functions are explicit state transformers.
-/

namespace PolyfemProof

/-! ### Sparse matrix model (Eigen compressed column storage) -/

/-- Compressed column storage of a square sparse matrix, as produced by
`Eigen::SparseMatrix<double>::makeCompressed`: `outer.getD j 0` is the slot
where column `j` starts, `inner` holds the row index of each slot, `vals`
the stored value of each slot. -/
structure CSC where
  n : ℕ
  outer : List ℕ
  inner : List ℕ
  vals : List ℤ
deriving DecidableEq

/-- Rows holding a structural entry in column `j` of the triplet list,
in increasing order (Eigen sorts and dedups on `setFromTriplets`). -/
def colRows (n : ℕ) (ts : List (ℕ × ℕ × ℤ)) (j : ℕ) : List ℕ :=
  (List.range n).filter (fun i => ts.any (fun t => t.1 == i && t.2.1 == j))

/-- Sum of all triplet values at position `(i, j)` (Eigen's
`setFromTriplets` accumulates duplicates). -/
def tripletSum (ts : List (ℕ × ℕ × ℤ)) (i j : ℕ) : ℤ :=
  ((ts.filter (fun t => t.1 == i && t.2.1 == j)).map (fun t => t.2.2)).sum

/-- `setFromTriplets` followed by `makeCompressed`: one slot per distinct
position, columns in order, rows sorted inside each column, duplicate
values summed. -/
def cscOfTriplets (n : ℕ) (ts : List (ℕ × ℕ × ℤ)) : CSC where
  n := n
  outer := (List.range (n + 1)).map
    (fun j => ((List.range j).map (fun k => (colRows n ts k).length)).sum)
  inner := (List.range n).flatMap (fun j => colRows n ts j)
  vals := (List.range n).flatMap (fun j => (colRows n ts j).map (fun i => tripletSum ts i j))

/-- The empty sparse matrix of size `n` (`resize` + `setZero`). -/
def emptyCSC (n : ℕ) : CSC := cscOfTriplets n []

/-- Enumerate the stored entries of a compressed matrix as
`(row, col, value)` triplets. -/
def CSC.toTriplets (m : CSC) : List (ℕ × ℕ × ℤ) :=
  (List.range m.n).flatMap (fun j =>
    (List.range (m.outer.getD (j + 1) 0 - m.outer.getD j 0)).map (fun k =>
      (m.inner.getD (m.outer.getD j 0 + k) 0, j, m.vals.getD (m.outer.getD j 0 + k) 0)))

/-- Sparse matrix addition (`mat_ += tmp_`): union of the stored
patterns, values summed. -/
def cscAdd (a b : CSC) : CSC := cscOfTriplets a.n (a.toTriplets ++ b.toTriplets)

/-! ### SpareMatrixCache (src/utils/MatrixUtils.cpp) -/

/-- State of `polyfem::SpareMatrixCache`.  `tmp_` is omitted: it is a
scratch matrix that is zero at every public-interface boundary ( `prune`
fills it from the triplets and immediately zeroes it again). -/
structure SpareMatrixCache where
  size_ : ℕ
  entries_ : List (ℕ × ℕ × ℤ)
  mat_ : CSC
  mapping_ : List (List (ℕ × ℕ))
  inner_index_ : List ℕ
  outer_index_ : List ℕ
  values_ : List ℤ
deriving DecidableEq

/-- `SpareMatrixCache(size)` / `init(size)` on a fresh cache. -/
def SpareMatrixCache.initSize (size : ℕ) : SpareMatrixCache where
  size_ := size
  entries_ := []
  mat_ := emptyCSC size
  mapping_ := []
  inner_index_ := []
  outer_index_ := []
  values_ := []

/-- `SpareMatrixCache::set_zero`: zeroes `tmp_` (omitted), `mat_` and the
flat value buffer.  Note: the triplet buffer `entries_` is NOT touched. -/
def SpareMatrixCache.set_zero (c : SpareMatrixCache) : SpareMatrixCache :=
  { c with mat_ := emptyCSC c.size_, values_ := List.replicate c.values_.length 0 }

/-- `SpareMatrixCache::add_value`: cold phase (no mapping) appends a
triplet; warm phase walks the row's `(column, slot)` list and accumulates
into the flat value buffer at each matching slot. -/
def SpareMatrixCache.add_value (c : SpareMatrixCache) (i j : ℕ) (v : ℤ) : SpareMatrixCache :=
  if c.mapping_ = [] then
    { c with entries_ := c.entries_ ++ [(i, j, v)] }
  else
    let upd := (c.mapping_.getD i []).foldl
      (fun vs p => if p.1 = j then vs.set p.2 (vs.getD p.2 0 + v) else vs) c.values_
    { c with values_ := upd }

/-- `SpareMatrixCache::prune`: cold phase compresses the accumulated
triplets into the running matrix and clears the triplet buffer; warm
phase is a no-op. -/
def SpareMatrixCache.prune (c : SpareMatrixCache) : SpareMatrixCache :=
  if c.mapping_ = [] then
    { c with mat_ := cscAdd c.mat_ (cscOfTriplets c.size_ c.entries_), entries_ := [] }
  else c

/-- Column of storage slot `k`: the `j` with `outer j ≤ k < outer (j+1)`. -/
def colOf (m : CSC) (k : ℕ) : ℕ :=
  ((List.range m.n).filter
    (fun j => decide (m.outer.getD j 0 ≤ k) && decide (k < m.outer.getD (j + 1) 0))).headD 0

/-- The row-grouped `(column, slot)` mapping built by
`get_matrix(compute_mapping = true)`: row `r` lists, in increasing slot
order, every storage slot whose inner (row) index is `r`, paired with its
column. -/
def buildMapping (m : CSC) : List (List (ℕ × ℕ)) :=
  (List.range m.n).map (fun r =>
    ((List.range m.inner.length).filter (fun k => m.inner.getD k 0 == r)).map
      (fun k => (colOf m k, k)))

/-- `SpareMatrixCache::get_matrix`: prune, then either (cold) optionally
record the mapping and the inner/outer index arrays of the compressed
matrix, or (warm) rebuild the matrix directly from the preserved index
arrays and the flat value buffer.  In every branch the flat value buffer
is reset to zero before returning. -/
def SpareMatrixCache.get_matrix (c0 : SpareMatrixCache) (compute_mapping : Bool) :
    CSC × SpareMatrixCache :=
  let c := c0.prune
  if c.mapping_ = [] then
    if compute_mapping then
      let c2 := { c with
        mapping_ := buildMapping c.mat_
        inner_index_ := c.mat_.inner
        outer_index_ := c.mat_.outer
        values_ := List.replicate c.mat_.inner.length 0 }
      (c2.mat_, c2)
    else
      (c.mat_, { c with values_ := List.replicate c.values_.length 0 })
  else
    let m : CSC := ⟨c.size_, c.outer_index_, c.inner_index_, c.values_⟩
    (m, { c with mat_ := m, values_ := List.replicate c.values_.length 0 })

/-- Run a sequence of `add_value` calls. -/
def addAll (c : SpareMatrixCache) (ts : List (ℕ × ℕ × ℤ)) : SpareMatrixCache :=
  ts.foldl (fun acc t => acc.add_value t.1 t.2.1 t.2.2) c

/-- The concrete 4-node, 6-nonzero reference pattern of the spec's cache
correctness property: diagonal plus the symmetric pair `(0,1)`/`(1,0)`,
with one duplicate accumulation at `(0,0)`. -/
def refTriplets : List (ℕ × ℕ × ℤ) :=
  [(0, 0, 1), (1, 1, 2), (2, 2, 3), (3, 3, 4), (0, 1, 5), (1, 0, 6), (0, 0, 7)]

/-- Cold phase of the two-phase scenario: triplet accumulation on a fresh
cache of size 4. -/
def c4cold : SpareMatrixCache := addAll (SpareMatrixCache.initSize 4) refTriplets

/-- First `get_matrix(true)`: compresses and records the mapping. -/
def c4first : CSC × SpareMatrixCache := c4cold.get_matrix true

/-- Warm phase: `set_zero` then the identical `add_value` sequence. -/
def c4warm : SpareMatrixCache := addAll c4first.2.set_zero refTriplets

/-- Second `get_matrix()`: warm rebuild from the flat value buffer. -/
def c4second : CSC × SpareMatrixCache := c4warm.get_matrix false

/-! ### NLProblem (src/solver/NLProblem.cpp) -/

/-- The file-static contact switch of NLProblem.cpp, line 12:
`static bool disable_collision = true;`.  No code in the translation unit
ever assigns to it. -/
def disable_collision : Bool := true

/-- `dhat_squared = 1e-6`, the hard-coded squared-distance threshold. -/
def dhat_squared : ℚ := 1 / 1000000

/-- The hard-coded `1e8` contact-barrier weight. -/
def barrier_weight : ℚ := 100000000

/-- Read-only simulation context: the `State`, `AssemblerUtils` and
`RhsAssembler` collaborators of `NLProblem`, restricted to what its
member functions consume.  External kernels (elastic energy, rhs, mass,
ipc) are abstract functions; fixed geometry (boundary rest positions,
edges, triangles) is data. -/
structure Ctx where
  dim : ℕ
  n_bases : ℕ
  n_pressure_bases : ℕ
  is_mixed : Bool
  is_linear : Bool
  is_time_dependent : Bool
  has_collision : Bool
  boundary_nodes : List ℕ
  boundary_nodes_pos : List (List ℚ)
  boundary_edges : List (ℕ × ℕ)
  boundary_triangles : List (ℕ × ℕ × ℕ)
  mass : ℕ → ℕ → ℚ
  assemble_energy : List ℚ → ℚ
  body_energy : ℚ → List ℚ → ℚ
  assemble_energy_gradient : List ℚ → List ℚ
  assemble_energy_hessian : List ℚ → ℕ → ℕ → ℚ
  assemble_problem : ℕ → ℕ → ℚ
  rhs_base : ℚ → List ℚ
  bc : ℚ → ℕ → ℚ
  construct_constraint_set :
    List (List ℚ) → List (ℕ × ℕ) → List (ℕ × ℕ × ℕ) → ℚ → List (ℕ × ℕ)
  barrier_potential :
    List (List ℚ) → List (List ℚ) → List (ℕ × ℕ) → List (ℕ × ℕ × ℕ) → List (ℕ × ℕ) → ℚ → ℚ
  barrier_gradient :
    List (List ℚ) → List (List ℚ) → List (ℕ × ℕ) → List (ℕ × ℕ × ℕ) → List (ℕ × ℕ) → ℚ →
      List ℚ
  barrier_hessian :
    List (List ℚ) → List (List ℚ) → List (ℕ × ℕ) → List (ℕ × ℕ × ℕ) → List (ℕ × ℕ) → ℚ →
      ℕ → ℕ → ℚ
  step_collision_free : List (List ℚ) → List (List ℚ) → List (ℕ × ℕ) → List (ℕ × ℕ × ℕ) → Bool

/-- `full_size = (is_mixed ? n_pressure_bases : 0) + n_bases * dimension`
(NLProblem constructor, line 20). -/
def Ctx.full_size (c : Ctx) : ℕ :=
  (if c.is_mixed then c.n_pressure_bases else 0) + c.n_bases * c.dim

/-- `reduced_size = full_size - boundary_nodes.size()` (line 21). -/
def Ctx.reduced_size (c : Ctx) : ℕ := c.full_size - c.boundary_nodes.length

/-- Mutable members of `NLProblem`. -/
structure NLState where
  t : ℚ
  x_prev : List ℚ
  v_prev : List ℚ
  dt : ℚ
  rhs_computed : Bool
  current_rhs_cache : List ℚ
  cached_stiffness : Option (ℕ → ℕ → ℚ)

/-- The `NLProblem` constructor: `assert(!assembler.is_mixed(...))`, so a
mixed formulation never yields an instance; otherwise the flags are
recorded and the rhs cache starts invalid. -/
def construct (c : Ctx) (t : ℚ) : Option NLState :=
  if c.is_mixed then none
  else some
    { t := t, x_prev := [], v_prev := [], dt := 0, rhs_computed := false,
      current_rhs_cache := [], cached_stiffness := none }

/-- `NLProblem::init_timestep`: records previous-step data only. -/
def init_timestep (s : NLState) (x v : List ℚ) (dt : ℚ) : NLState :=
  { s with x_prev := x, v_prev := v, dt := dt }

/-- Componentwise vector sum (`Eigen` `+`). -/
def vadd (a b : List ℚ) : List ℚ := List.zipWith (· + ·) a b

/-- Componentwise vector difference. -/
def vsub (a b : List ℚ) : List ℚ := List.zipWith (· - ·) a b

/-- Scalar times vector. -/
def smul (a : ℚ) (v : List ℚ) : List ℚ := v.map (fun x => a * x)

/-- Euclidean inner product. -/
def dot (a b : List ℚ) : ℚ := (List.zipWith (· * ·) a b).sum

/-- The mass operator applied to a full-size vector. -/
def massApply (c : Ctx) (v : List ℚ) : List ℚ :=
  (List.range c.full_size).map
    (fun i => ((List.range c.full_size).map (fun j => c.mass i j * v.getD j 0)).sum)

/-- `NLProblem::update_quantities`: when time-dependent, sets
`v_prev = (x - x_prev)/dt`, `x_prev = x`, invalidates the rhs cache and
updates `t`; otherwise does nothing. -/
def update_quantities (c : Ctx) (s : NLState) (t : ℚ) (x : List ℚ) : NLState :=
  if c.is_time_dependent then
    { s with
      v_prev := (vsub x s.x_prev).map (fun a => a / s.dt)
      x_prev := x
      rhs_computed := false
      t := t }
  else s

/-- `RhsAssembler::set_bc` as used by `current_rhs`: overwrite the rows
at boundary indices with the prescribed boundary values at time `t`
(first argument is the absolute index of the list head). -/
def set_bc_go (c : Ctx) (t : ℚ) : ℕ → List ℚ → List ℚ
  | _, [] => []
  | i, a :: rest => (if i ∈ c.boundary_nodes then c.bc t i else a) :: set_bc_go c t (i + 1) rest

/-- The rhs vector `current_rhs` computes on a cache miss: collaborator
forcing at time `t`, zero-padded by `n_pressure_bases` when the
formulation is mixed and the vector is short, rescaled by `dt²/2` and
augmented with `mass · (x_prev + dt·v_prev)` when time-dependent, then
boundary rows overwritten by `set_bc`. -/
def compute_rhs (c : Ctx) (s : NLState) : List ℚ :=
  let r0 := c.rhs_base s.t
  let r1 :=
    if c.is_mixed then
      (if r0.length < c.full_size then r0 ++ List.replicate c.n_pressure_bases 0 else r0)
    else r0
  let r2 :=
    if c.is_time_dependent then
      vadd (smul (s.dt * s.dt / 2) r1) (massApply c (vadd s.x_prev (smul s.dt s.v_prev)))
    else r1
  set_bc_go c s.t 0 r2

/-- The same rhs computation with the mixed-formulation zero-padding step
removed (used to state that the padding branch is never taken). -/
def compute_rhs_nomixed (c : Ctx) (s : NLState) : List ℚ :=
  let r1 := c.rhs_base s.t
  let r2 :=
    if c.is_time_dependent then
      vadd (smul (s.dt * s.dt / 2) r1) (massApply c (vadd s.x_prev (smul s.dt s.v_prev)))
    else r1
  set_bc_go c s.t 0 r2

/-- `NLProblem::current_rhs`: lazily computed, cached until invalidated. -/
def current_rhs (c : Ctx) (s : NLState) : List ℚ × NLState :=
  if s.rhs_computed then (s.current_rhs_cache, s)
  else (compute_rhs c s,
    { s with rhs_computed := true, current_rhs_cache := compute_rhs c s })

/-- Modelled from the spec: `full_to_reduced_aux` is declared in
`NLProblem.hpp`, which is not among the provided sources; per the spec it
drops the entries at boundary indices, preserving the relative order of
the remaining entries (first argument is the absolute index of the list
head). -/
def full_to_reduced_go (bnodes : List ℕ) : ℕ → List ℚ → List ℚ
  | _, [] => []
  | i, a :: rest =>
    if i ∈ bnodes then full_to_reduced_go bnodes (i + 1) rest
    else a :: full_to_reduced_go bnodes (i + 1) rest

/-- `full_to_reduced_aux` applied from index 0. -/
def full_to_reduced_aux (bnodes : List ℕ) (full : List ℚ) : List ℚ :=
  full_to_reduced_go bnodes 0 full

/-- `NLProblem::full_to_reduced`. -/
def full_to_reduced (c : Ctx) (full : List ℚ) : List ℚ :=
  full_to_reduced_aux c.boundary_nodes full

/-- Modelled from the spec: `reduced_to_full_aux` is declared in
`NLProblem.hpp`, which is not among the provided sources; per the spec it
scatters the reduced entries into the free slots in order and fills each
boundary slot `i` from the caller-supplied full-size vector's entry `i`. -/
def reduced_to_full_go (bnodes : List ℕ) : ℕ → List ℚ → List ℚ → List ℚ
  | _, _, [] => []
  | i, r, b :: brest =>
    if i ∈ bnodes then b :: reduced_to_full_go bnodes (i + 1) r brest
    else
      match r with
      | [] => 0 :: reduced_to_full_go bnodes (i + 1) [] brest
      | x :: xs => x :: reduced_to_full_go bnodes (i + 1) xs brest

/-- `reduced_to_full_aux` applied from index 0. -/
def reduced_to_full_aux (bnodes : List ℕ) (reduced bvals : List ℚ) : List ℚ :=
  reduced_to_full_go bnodes 0 reduced bvals

/-- `NLProblem::reduced_to_full` (lines 378-381): the boundary values are
not caller-supplied, they are the entries of `current_rhs()`; computing
the rhs may update the cache state. -/
def reduced_to_full (c : Ctx) (s : NLState) (reduced : List ℚ) : List ℚ × NLState :=
  let rs := current_rhs c s
  (reduced_to_full_go c.boundary_nodes 0 reduced rs.1, rs.2)

/-- The size-polymorphic input dispatch shared by `value`, `gradient`,
`gradient_no_rhs`, `hessian_full` and `is_step_valid`: a vector of
reduced length is expanded through `reduced_to_full`, anything else is
used as the full vector. -/
def expand (c : Ctx) (s : NLState) (x : List ℚ) : List ℚ × NLState :=
  if x.length = c.reduced_size then reduced_to_full c s x else (x, s)

/-- The point-cloud reinterpretation of a flat DOF vector:
`reshaped(i / dim, d) = full(i + d)`. -/
def reshape (dim : ℕ) (v : List ℚ) : List (List ℚ) :=
  (List.range (v.length / dim)).map
    (fun k => (List.range dim).map (fun d => v.getD (k * dim + d) 0))

/-- Pointwise sum of two point-cloud matrices. -/
def matAdd (a b : List (List ℚ)) : List (List ℚ) :=
  List.zipWith (List.zipWith (· + ·)) a b

/-- `boundary_nodes_pos + reshaped`: the deformed boundary configuration
at a full DOF vector. -/
def deformed (c : Ctx) (full : List ℚ) : List (List ℚ) :=
  matAdd c.boundary_nodes_pos (reshape c.dim full)

/-- The contact-barrier energy of the branch body in `NLProblem::value`:
a candidate set is built fresh from the deformed boundary configuration
with threshold `dhat_squared`, then the barrier potential is evaluated
on it. -/
def collision_energy (c : Ctx) (full : List ℚ) : ℚ :=
  c.barrier_potential c.boundary_nodes_pos (deformed c full) c.boundary_edges
    c.boundary_triangles
    (c.construct_constraint_set (deformed c full) c.boundary_edges c.boundary_triangles
      dhat_squared)
    dhat_squared

/-- The contact-barrier gradient of the branch body in
`NLProblem::gradient_no_rhs` (fresh candidate set, same threshold). -/
def collision_gradient (c : Ctx) (full : List ℚ) : List ℚ :=
  c.barrier_gradient c.boundary_nodes_pos (deformed c full) c.boundary_edges
    c.boundary_triangles
    (c.construct_constraint_set (deformed c full) c.boundary_edges c.boundary_triangles
      dhat_squared)
    dhat_squared

/-- The contact-barrier Hessian of the branch body in
`NLProblem::hessian_full` (fresh candidate set, same threshold). -/
def collision_hessian (c : Ctx) (full : List ℚ) : ℕ → ℕ → ℚ :=
  c.barrier_hessian c.boundary_nodes_pos (deformed c full) c.boundary_edges
    c.boundary_triangles
    (c.construct_constraint_set (deformed c full) c.boundary_edges c.boundary_triangles
      dhat_squared)
    dhat_squared

/-- `NLProblem::value` with the file-static contact switch made an
explicit parameter `dc` (the member function reads the static variable;
`value` below instantiates it).  Returns the scalar objective and the
possibly-updated cache state. -/
def value_p (dc : Bool) (c : Ctx) (s : NLState) (x : List ℚ) : ℚ × NLState :=
  let fs := expand c s x
  ((if c.is_time_dependent then s.dt * s.dt / 2 else 1) *
      (c.assemble_energy fs.1 + c.body_energy s.t fs.1 +
        barrier_weight * (if !dc && c.has_collision then collision_energy c fs.1 else 0)) +
    (if c.is_time_dependent then
      (1 / 2 : ℚ) * dot (vsub fs.1 (vadd s.x_prev (smul s.dt s.v_prev)))
          (massApply c (vsub fs.1 (vadd s.x_prev (smul s.dt s.v_prev))))
     else 0),
   fs.2)

/-- `NLProblem::value` as compiled (static switch in place). -/
def value (c : Ctx) (s : NLState) (x : List ℚ) : ℚ × NLState :=
  value_p disable_collision c s x

/-- `NLProblem::gradient_no_rhs` with the contact switch explicit:
elastic gradient plus `1e8 ×` barrier gradient when contact applies;
never includes rhs or inertia. -/
def gradient_no_rhs_p (dc : Bool) (c : Ctx) (s : NLState) (x : List ℚ) : List ℚ × NLState :=
  let fs := expand c s x
  (if !dc && c.has_collision then
      vadd (c.assemble_energy_gradient fs.1) (smul barrier_weight (collision_gradient c fs.1))
    else c.assemble_energy_gradient fs.1,
   fs.2)

/-- `NLProblem::gradient_no_rhs` as compiled. -/
def gradient_no_rhs (c : Ctx) (s : NLState) (x : List ℚ) : List ℚ × NLState :=
  gradient_no_rhs_p disable_collision c s x

/-- `NLProblem::gradient` with the contact switch explicit:
`gradient_no_rhs`, rescaled by `dt²/2` and augmented with `mass·full`
when time-dependent, minus `current_rhs()`, projected to reduced size. -/
def gradient_p (dc : Bool) (c : Ctx) (s : NLState) (x : List ℚ) : List ℚ × NLState :=
  let gs := gradient_no_rhs_p dc c s x
  let gs2 :=
    if c.is_time_dependent then
      let fs := expand c gs.2 x
      (vadd (smul (s.dt * s.dt / 2) gs.1) (massApply c fs.1), fs.2)
    else gs
  let rs := current_rhs c gs2.2
  (full_to_reduced c (vsub gs2.1 rs.1), rs.2)

/-- `NLProblem::gradient` as compiled. -/
def gradient (c : Ctx) (s : NLState) (x : List ℚ) : List ℚ × NLState :=
  gradient_p disable_collision c s x

/-- `NLProblem::compute_cached_stiffness`: on first use under a linear
formulation, assemble and cache the linear stiffness. -/
def compute_cached_stiffness (c : Ctx) (s : NLState) : NLState :=
  match s.cached_stiffness with
  | some _ => s
  | none => if c.is_linear then { s with cached_stiffness := some c.assemble_problem } else s

/-- `NLProblem::hessian_full` with the contact switch explicit:
cached linear stiffness or fresh nonlinear Hessian, `dt²/2` scaling plus
mass when time-dependent, plus `1e8 ×` barrier Hessian when contact
applies.  Matrices are modelled by their entry functions. -/
def hessian_full_p (dc : Bool) (c : Ctx) (s : NLState) (x : List ℚ) :
    (ℕ → ℕ → ℚ) × NLState :=
  let fs := expand c s x
  let hs : (ℕ → ℕ → ℚ) × NLState :=
    if c.is_linear then
      let s2 := compute_cached_stiffness c fs.2
      (s2.cached_stiffness.getD (fun _ _ => 0), s2)
    else
      (c.assemble_energy_hessian fs.1, fs.2)
  let h1 : ℕ → ℕ → ℚ :=
    if c.is_time_dependent then fun i j => s.dt * s.dt / 2 * hs.1 i j + c.mass i j else hs.1
  (if !dc && c.has_collision then
      fun i j => h1 i j + barrier_weight * collision_hessian c fs.1 i j
    else h1,
   hs.2)

/-- `NLProblem::hessian_full` as compiled. -/
def hessian_full (c : Ctx) (s : NLState) (x : List ℚ) : (ℕ → ℕ → ℚ) × NLState :=
  hessian_full_p disable_collision c s x

/-- The free (non-boundary) full indices in increasing order; the
boundary-elimination index remap of `NLProblem::hessian` sends the `a`-th
free index to reduced index `a`. -/
def free_indices (c : Ctx) : List ℕ :=
  (List.range c.full_size).filter (fun i => !(decide (i ∈ c.boundary_nodes)))

/-- `NLProblem::hessian` with the contact switch explicit: the full
Hessian with boundary rows and columns eliminated; reduced entry `(a,b)`
is full entry `(free_indices a, free_indices b)`. -/
def hessian_p (dc : Bool) (c : Ctx) (s : NLState) (x : List ℚ) : (ℕ → ℕ → ℚ) × NLState :=
  let hs := hessian_full_p dc c s x
  (fun a b => hs.1 ((free_indices c).getD a 0) ((free_indices c).getD b 0), hs.2)

/-- `NLProblem::hessian` as compiled. -/
def hessian (c : Ctx) (s : NLState) (x : List ℚ) : (ℕ → ℕ → ℚ) × NLState :=
  hessian_p disable_collision c s x

/-- `NLProblem::is_step_valid` with the contact switch explicit: early
`true` when contact is off, otherwise both endpoints are expanded,
reinterpreted as point clouds offset by the rest boundary geometry, and
the step is rejected (`true`) exactly when the continuous motion is not
collision-free. -/
def is_step_valid_p (dc : Bool) (c : Ctx) (s : NLState) (x0 x1 : List ℚ) : Bool × NLState :=
  if dc then (true, s)
  else if !c.has_collision then (true, s)
  else
    let fs0 := expand c s x0
    let fs1 := expand c fs0.2 x1
    (!(c.step_collision_free (deformed c fs0.1) (deformed c fs1.1) c.boundary_edges
        c.boundary_triangles),
     fs1.2)

/-- `NLProblem::is_step_valid` as compiled. -/
def is_step_valid (c : Ctx) (s : NLState) (x0 x1 : List ℚ) : Bool × NLState :=
  is_step_valid_p disable_collision c s x0 x1

/-! ### Definitions following the spec's words (for refinement claims) -/

/-- Whether contact is globally enabled: the negation of the file-static
disable switch. -/
def contact_globally_enabled : Bool := !disable_collision

/-- The objective as the spec's `value(x)` sentence describes it: elastic
plus body energy scaled by `dt²/2` when time-dependent, plus the
(unscaled) inertial quadratic term when time-dependent, plus — only when
contact is globally enabled and the context's collision flag is set — a
barrier energy with fixed weight `1e8` over a freshly built candidate
set with threshold `dhat² = 1e-6`. -/
def value_spec (c : Ctx) (s : NLState) (x : List ℚ) : ℚ :=
  let fs := expand c s x
  (if c.is_time_dependent then s.dt * s.dt / 2 else 1) *
      (c.assemble_energy fs.1 + c.body_energy s.t fs.1) +
    (if c.is_time_dependent then
      (1 / 2 : ℚ) * dot (vsub fs.1 (vadd s.x_prev (smul s.dt s.v_prev)))
          (massApply c (vsub fs.1 (vadd s.x_prev (smul s.dt s.v_prev))))
     else 0) +
    (if contact_globally_enabled && c.has_collision then
      barrier_weight * collision_energy c fs.1
     else 0)

/-- `is_step_valid` as the spec's sentence describes it: always valid
when the global contact flag or the context's collision flag is off;
otherwise both endpoints are expanded to full size, reshaped as point
clouds offset by the rest boundary geometry, and the result is `true`
exactly when the continuous motion between the two boundary
configurations is not collision-free. -/
def is_step_valid_spec (dc : Bool) (c : Ctx) (s : NLState) (x0 x1 : List ℚ) : Bool :=
  if dc || !c.has_collision then true
  else
    let fs0 := expand c s x0
    let fs1 := expand c fs0.2 x1
    !(c.step_collision_free (matAdd c.boundary_nodes_pos (reshape c.dim fs0.1))
        (matAdd c.boundary_nodes_pos (reshape c.dim fs1.1)) c.boundary_edges
        c.boundary_triangles)

/-- Number of non-boundary indices among `[i, i + n)`. -/
def freeCount (bnodes : List ℕ) : ℕ → ℕ → ℕ
  | _, 0 => 0
  | i, n + 1 => (if i ∈ bnodes then 0 else 1) + freeCount bnodes (i + 1) n

/-! ### Concrete instances for witnesses and counterexamples -/

/-- A concrete scalar (dim 1), non-mixed, nonlinear, time-independent
context with two basis functions and one Dirichlet node (index 0):
`full_size = 2`, `reduced_size = 1`.  The elastic energy reads the first
full DOF, the load vector is `[5, 0]` and the prescribed boundary value
is the constant `5`. -/
def baseCtx : Ctx where
  dim := 1
  n_bases := 2
  n_pressure_bases := 0
  is_mixed := false
  is_linear := false
  is_time_dependent := false
  has_collision := false
  boundary_nodes := [0]
  boundary_nodes_pos := []
  boundary_edges := []
  boundary_triangles := []
  mass := fun _ _ => 0
  assemble_energy := fun full => full.getD 0 0
  body_energy := fun _ _ => 0
  assemble_energy_gradient := fun _ => []
  assemble_energy_hessian := fun _ _ _ => 0
  assemble_problem := fun _ _ => 0
  rhs_base := fun _ => [5, 0]
  bc := fun _ _ => 5
  construct_constraint_set := fun _ _ _ _ => []
  barrier_potential := fun _ _ _ _ _ _ => 0
  barrier_gradient := fun _ _ _ _ _ _ => []
  barrier_hessian := fun _ _ _ _ _ _ _ _ => 0
  step_collision_free := fun _ _ _ _ => true

/-- The freshly constructed state for `baseCtx` at time 0. -/
def baseState : NLState where
  t := 0
  x_prev := []
  v_prev := []
  dt := 0
  rhs_computed := false
  current_rhs_cache := []
  cached_stiffness := none

/-! ### Theorems -/

/-- C5 (counterexample): `set_zero` does not clear the triplet buffer.
On a cold cache of size 2 holding the single accumulated triplet
`(0, 0, 1)`, the buffer is still nonempty after `set_zero()`. -/
theorem set_zero_clears_triplet_buffer_cex :
    ¬((SpareMatrixCache.initSize 2).add_value 0 0 1).set_zero.entries_ = [] := by
  decide

/-- C5 (amended): for every cache state, `set_zero()` clears the matrix
and the flat value buffer and leaves the accumulated triplet buffer and
the cached structure (size, mapping, inner and outer index arrays)
unchanged. -/
theorem set_zero_frame (c : SpareMatrixCache) :
    c.set_zero.mat_ = emptyCSC c.size_ ∧
    c.set_zero.values_ = List.replicate c.values_.length 0 ∧
    c.set_zero.entries_ = c.entries_ ∧
    c.set_zero.size_ = c.size_ ∧
    c.set_zero.mapping_ = c.mapping_ ∧
    c.set_zero.inner_index_ = c.inner_index_ ∧
    c.set_zero.outer_index_ = c.outer_index_ :=
  ⟨rfl, rfl, rfl, rfl, rfl, rfl, rfl⟩

/-- C4: on the concrete 4-node, 6-nonzero reference pattern, cold triplet
assembly + `get_matrix(true)`, then `set_zero()` and the identical
`add_value` sequence + `get_matrix()`, both reproduce exactly the matrix
of direct triplet assembly, the warm pass preserves the cached index
arrays and mapping and leaves the value buffer reset to zero; and in
general every warm `get_matrix()` rebuilds the matrix directly from the
preserved index arrays and the flat value buffer (no re-derivation of
structure) and zeroes the value buffer as a side effect. -/
theorem cache_warm_phase_reproduces_cold :
    (c4first.1 = cscOfTriplets 4 refTriplets ∧
     c4second.1 = cscOfTriplets 4 refTriplets ∧
     c4warm.mapping_ ≠ [] ∧
     c4second.2.mapping_ = c4first.2.mapping_ ∧
     c4second.2.inner_index_ = c4first.2.inner_index_ ∧
     c4second.2.outer_index_ = c4first.2.outer_index_ ∧
     c4second.2.values_ = List.replicate (cscOfTriplets 4 refTriplets).vals.length 0) ∧
    (∀ c : SpareMatrixCache, c.mapping_ ≠ [] →
      c.get_matrix false =
        (CSC.mk c.size_ c.outer_index_ c.inner_index_ c.values_,
         { c with
            mat_ := CSC.mk c.size_ c.outer_index_ c.inner_index_ c.values_
            values_ := List.replicate c.values_.length 0 })) := by
  constructor
  · decide
  · intro c h
    simp [SpareMatrixCache.get_matrix, SpareMatrixCache.prune, h]

/-- Witness for the general warm-phase clause of C4, at the concrete
warm cache of the reference scenario. -/
theorem cache_warm_phase_reproduces_cold_witness :
    c4warm.get_matrix false =
      (CSC.mk c4warm.size_ c4warm.outer_index_ c4warm.inner_index_ c4warm.values_,
       { c4warm with
          mat_ := CSC.mk c4warm.size_ c4warm.outer_index_ c4warm.inner_index_ c4warm.values_
          values_ := List.replicate c4warm.values_.length 0 }) :=
  cache_warm_phase_reproduces_cold.2 c4warm (by decide)

/-- C1: for every input (full or reduced), `value` returns exactly what
the spec's formula states: elastic plus body energy scaled by `dt²/2`
when time-dependent, plus the unscaled inertial quadratic term when
time-dependent, plus a `1e8`-weighted fresh-candidate-set barrier term
only when contact is globally enabled and the collision flag is set
(the file-static switch makes that condition always false, so both sides
carry no barrier contribution). -/
theorem value_matches_spec (c : Ctx) (s : NLState) (x : List ℚ) :
    (value c s x).1 = value_spec c s x := by
  simp [value, value_p, value_spec, disable_collision, contact_globally_enabled]

/-- `set_bc` does not read the collision flag. -/
theorem set_bc_go_collision_flag (c : Ctx) (b : Bool) (t : ℚ) (i : ℕ) (v : List ℚ) :
    set_bc_go { c with has_collision := b } t i v = set_bc_go c t i v := by
  induction v generalizing i with
  | nil => rfl
  | cons a rest ih => simp [set_bc_go, ih]

/-- The mass operator does not read the collision flag. -/
theorem massApply_collision_flag (c : Ctx) (b : Bool) (v : List ℚ) :
    massApply { c with has_collision := b } v = massApply c v := by
  simp [massApply, Ctx.full_size]

/-- The rhs computation does not read the collision flag. -/
theorem compute_rhs_collision_flag (c : Ctx) (b : Bool) (s : NLState) :
    compute_rhs { c with has_collision := b } s = compute_rhs c s := by
  simp [compute_rhs, Ctx.full_size, set_bc_go_collision_flag, massApply_collision_flag]

/-- `current_rhs` does not read the collision flag. -/
theorem current_rhs_collision_flag (c : Ctx) (b : Bool) (s : NLState) :
    current_rhs { c with has_collision := b } s = current_rhs c s := by
  simp [current_rhs, compute_rhs_collision_flag]

/-- `reduced_to_full` does not read the collision flag. -/
theorem reduced_to_full_collision_flag (c : Ctx) (b : Bool) (s : NLState) (r : List ℚ) :
    reduced_to_full { c with has_collision := b } s r = reduced_to_full c s r := by
  simp [reduced_to_full, current_rhs_collision_flag]

/-- The input-size dispatch does not read the collision flag. -/
theorem expand_collision_flag (c : Ctx) (b : Bool) (s : NLState) (x : List ℚ) :
    expand { c with has_collision := b } s x = expand c s x := by
  simp [expand, Ctx.reduced_size, Ctx.full_size, reduced_to_full_collision_flag]

/-- The stiffness cache does not read the collision flag. -/
theorem compute_cached_stiffness_collision_flag (c : Ctx) (b : Bool) (s : NLState) :
    compute_cached_stiffness { c with has_collision := b } s = compute_cached_stiffness c s := by
  unfold compute_cached_stiffness
  rfl

/-- C2: the file-static contact switch is `true` and no operation writes
it, so the contact branches are dead: `is_step_valid` always returns
`true` (and leaves the state untouched), and `value`,
`gradient_no_rhs` and `hessian_full` are independent of the context's
`has_collision` flag. -/
theorem contact_globally_disabled :
    disable_collision = true ∧
    (∀ (c : Ctx) (s : NLState) (x0 x1 : List ℚ), is_step_valid c s x0 x1 = (true, s)) ∧
    (∀ (c : Ctx) (s : NLState) (x : List ℚ) (b : Bool),
      (value { c with has_collision := b } s x).1 =
        (value { c with has_collision := false } s x).1) ∧
    (∀ (c : Ctx) (s : NLState) (x : List ℚ) (b : Bool),
      (gradient_no_rhs { c with has_collision := b } s x).1 =
        (gradient_no_rhs { c with has_collision := false } s x).1) ∧
    (∀ (c : Ctx) (s : NLState) (x : List ℚ) (b : Bool),
      (hessian_full { c with has_collision := b } s x).1 =
        (hessian_full { c with has_collision := false } s x).1) := by
  refine ⟨rfl, fun c s x0 x1 => ?_, fun c s x b => ?_, fun c s x b => ?_, fun c s x b => ?_⟩
  · simp [is_step_valid, is_step_valid_p, disable_collision]
  · simp [value, value_p, disable_collision, expand_collision_flag, massApply_collision_flag]
  · simp [gradient_no_rhs, gradient_no_rhs_p, disable_collision, expand_collision_flag]
  · simp [hessian_full, hessian_full_p, disable_collision, expand_collision_flag,
      compute_cached_stiffness_collision_flag]

/-- C6: `is_step_valid` (with the global switch explicit) behaves as the
spec states: always `true` when the global contact flag or the context's
collision flag is off; otherwise it expands both endpoints, reshapes
them as rest-geometry-offset point clouds, and reports `true` exactly
when the continuous motion is not collision-free. -/
theorem is_step_valid_matches_spec (dc : Bool) (c : Ctx) (s : NLState) (x0 x1 : List ℚ) :
    (is_step_valid_p dc c s x0 x1).1 = is_step_valid_spec dc c s x0 x1 := by
  cases dc <;> cases hc : c.has_collision <;>
    simp [is_step_valid_p, is_step_valid_spec, hc, deformed]

/-- C7: `update_quantities(t, x)` on a problem that is not
time-dependent is a no-op: the whole state — `x_prev`, `v_prev`, `dt`,
the current time and the rhs-cache validity flag — is unchanged. -/
theorem update_quantities_noop (c : Ctx) (s : NLState) (t : ℚ) (x : List ℚ)
    (h : c.is_time_dependent = false) : update_quantities c s t x = s := by
  simp [update_quantities, h]

/-- Witness for C7 at the concrete time-independent context. -/
theorem update_quantities_noop_witness :
    update_quantities baseCtx baseState 5 [1] = baseState :=
  update_quantities_noop baseCtx baseState 5 [1] rfl

/-- C10: the constructor rejects mixed formulations, so every
successfully constructed instance has `is_mixed = false`, its
`full_size` is basis-count times spatial dimension (no pressure
contribution), and the mixed-formulation zero-padding branch of the rhs
computation is never taken. -/
theorem construct_asserts_not_mixed (c : Ctx) (t : ℚ) (s0 : NLState)
    (h : construct c t = some s0) :
    c.is_mixed = false ∧ c.full_size = c.n_bases * c.dim ∧
    ∀ s : NLState, compute_rhs c s = compute_rhs_nomixed c s := by
  cases hm : c.is_mixed with
  | true => simp [construct, hm] at h
  | false =>
    refine ⟨rfl, ?_, fun s => ?_⟩
    · simp [Ctx.full_size, hm]
    · simp [compute_rhs, compute_rhs_nomixed, hm]

/-- Witness for C10 at the concrete non-mixed context. -/
theorem construct_asserts_not_mixed_witness :
    baseCtx.is_mixed = false ∧ baseCtx.full_size = baseCtx.n_bases * baseCtx.dim ∧
    ∀ s : NLState, compute_rhs baseCtx s = compute_rhs_nomixed baseCtx s :=
  construct_asserts_not_mixed baseCtx 0 baseState rfl

/-- The reduced projection of a list starting at absolute index `i` has
one entry per free index. -/
theorem full_to_reduced_go_length (bnodes : List ℕ) (v : List ℚ) : ∀ i : ℕ,
    (full_to_reduced_go bnodes i v).length = freeCount bnodes i v.length := by
  induction v with
  | nil => intro i; rfl
  | cons a rest ih =>
    intro i
    by_cases h : i ∈ bnodes <;> (simp [full_to_reduced_go, freeCount, h, ih]; try omega)

/-- Expansion produces one entry per entry of the boundary-values list. -/
theorem reduced_to_full_go_length (bnodes : List ℕ) (b : List ℚ) : ∀ (i : ℕ) (r : List ℚ),
    (reduced_to_full_go bnodes i r b).length = b.length := by
  induction b with
  | nil => intro i r; rfl
  | cons bb brest ih =>
    intro i r
    by_cases h : i ∈ bnodes
    · simp [reduced_to_full_go, h, ih]
    · cases r with
      | nil => simp [reduced_to_full_go, h, ih]
      | cons x xs => simp [reduced_to_full_go, h, ih]

/-- Core round trip: projecting an expansion recovers the reduced vector,
provided the reduced vector has exactly one entry per free slot. -/
theorem roundtrip_go (bnodes : List ℕ) (b : List ℚ) : ∀ (i : ℕ) (r : List ℚ),
    r.length = freeCount bnodes i b.length →
    full_to_reduced_go bnodes i (reduced_to_full_go bnodes i r b) = r := by
  induction b with
  | nil =>
    intro i r hr
    simp [freeCount, List.length_eq_zero] at hr
    simp [hr, reduced_to_full_go, full_to_reduced_go]
  | cons bb brest ih =>
    intro i r hr
    by_cases h : i ∈ bnodes
    · simp only [freeCount, List.length_cons, h, if_true, zero_add] at hr
      simp only [reduced_to_full_go, h, if_true, full_to_reduced_go]
      exact ih (i + 1) r hr
    · cases r with
      | nil => simp [freeCount, h] at hr; omega
      | cons x xs =>
        simp [freeCount, h] at hr
        have hxs : xs.length = freeCount bnodes (i + 1) brest.length := by omega
        simp [reduced_to_full_go, h, full_to_reduced_go]
        exact ih (i + 1) xs hxs

/-- Free and boundary indices of a window partition it. -/
theorem freeCount_add_boundary (bnodes : List ℕ) (n : ℕ) : ∀ i : ℕ,
    freeCount bnodes i n +
      ((List.range' i n).filter (fun k => decide (k ∈ bnodes))).length = n := by
  induction n with
  | zero => intro i; rfl
  | succ m ih =>
    intro i
    have hm := ih (i + 1)
    by_cases h : i ∈ bnodes <;> simp [freeCount, h, List.range'_succ] <;> omega

/-- A duplicate-free list of indices below `n` is counted exactly by
filtering `range n` for membership. -/
theorem filter_range_nodup_length : ∀ (n : ℕ) (l : List ℕ), l.Nodup → (∀ x ∈ l, x < n) →
    ((List.range n).filter (fun k => decide (k ∈ l))).length = l.length := by
  intro n
  induction n with
  | zero =>
    intro l _ hb
    cases l with
    | nil => rfl
    | cons a t => exact absurd (hb a (by simp)) (by omega)
  | succ m ih =>
    intro l hn hb
    rw [List.range_succ, List.filter_append, List.length_append]
    by_cases h : m ∈ l
    · have h1 : ((List.range m).filter (fun k => decide (k ∈ l))).length =
          ((List.range m).filter (fun k => decide (k ∈ l.erase m))).length := by
        have hcong : ∀ x ∈ List.range m,
            (decide (x ∈ l)) = (decide (x ∈ l.erase m)) := by
          intro x hx
          have hxm : x ≠ m := by
            have := List.mem_range.mp hx
            omega
          simp [List.mem_erase_of_ne hxm]
        rw [List.filter_congr hcong]
      have h2 : ((List.range m).filter (fun k => decide (k ∈ l.erase m))).length =
          (l.erase m).length := by
        apply ih (l.erase m) (hn.erase m)
        intro x hx
        have hxm : x ≠ m ∧ x ∈ l := (List.Nodup.mem_erase_iff hn).mp hx
        have := hb x hxm.2
        omega
      have h3 : (l.erase m).length = l.length - 1 := List.length_erase_of_mem h
      have h4 : 0 < l.length := List.length_pos_of_mem h
      simp [h]
      omega
    · have hb2 : ∀ x ∈ l, x < m := by
        intro x hx
        have := hb x hx
        have : x ≠ m := fun he => h (he ▸ hx)
        omega
      simp [ih l hn hb2, h]

/-- Under a duplicate-free, in-range boundary set, the number of free
slots is `full_size - |boundary_nodes|`. -/
theorem freeCount_eq_sub (bnodes : List ℕ) (n : ℕ) (hn : bnodes.Nodup)
    (hb : ∀ x ∈ bnodes, x < n) : freeCount bnodes 0 n = n - bnodes.length := by
  have h1 := freeCount_add_boundary bnodes n 0
  rw [← List.range_eq_range'] at h1
  rw [filter_range_nodup_length n bnodes hn hb] at h1
  omega

/-- C8: `full_to_reduced (reduced_to_full r b) = r` for every
reduced-size `r` and every boundary-values vector `b`; consequently the
composite `full_to_reduced ∘ reduced_to_full ∘ full_to_reduced` is
`full_to_reduced`; and the inverse composition does not recover boundary
content (concrete counterexample at `x = [1,2]`, boundary `{0}`,
`b = [5,9]`). -/
theorem dof_reduction_roundtrip :
    (∀ (bnodes : List ℕ) (b r : List ℚ), bnodes.Nodup → (∀ i ∈ bnodes, i < b.length) →
      r.length = b.length - bnodes.length →
      full_to_reduced_aux bnodes (reduced_to_full_aux bnodes r b) = r) ∧
    (∀ (bnodes : List ℕ) (b x : List ℚ), x.length = b.length →
      full_to_reduced_aux bnodes
          (reduced_to_full_aux bnodes (full_to_reduced_aux bnodes x) b) =
        full_to_reduced_aux bnodes x) ∧
    reduced_to_full_aux [0] (full_to_reduced_aux [0] [(1 : ℚ), 2]) [5, 9] ≠ [(1 : ℚ), 2] := by
  refine ⟨?_, ?_, ?_⟩
  · intro bnodes b r hn hb hr
    exact roundtrip_go bnodes b 0 r
      (by rw [freeCount_eq_sub bnodes b.length hn hb]; exact hr)
  · intro bnodes b x hx
    apply roundtrip_go
    rw [full_to_reduced_aux, full_to_reduced_go_length, hx]
  · norm_num [reduced_to_full_aux, full_to_reduced_aux, full_to_reduced_go, reduced_to_full_go]

/-- Witness for C8 at the concrete spec scenario shape: boundary `{0}`,
boundary values `[5,9]`, reduced vector `[3]`. -/
theorem dof_reduction_roundtrip_witness :
    full_to_reduced_aux [0] (reduced_to_full_aux [0] [(3 : ℚ)] [5, 9]) = [(3 : ℚ)] :=
  dof_reduction_roundtrip.1 [0] [5, 9] [3] (by decide) (by decide) (by decide)

/-- `set_bc` preserves the vector length. -/
theorem set_bc_go_length (c : Ctx) (t : ℚ) (v : List ℚ) : ∀ i : ℕ,
    (set_bc_go c t i v).length = v.length := by
  induction v with
  | nil => intro i; rfl
  | cons a rest ih => intro i; simp [set_bc_go, ih]

/-- `set_bc` overwrites every boundary row with the prescribed value. -/
theorem set_bc_go_getD_boundary (c : Ctx) (t : ℚ) (v : List ℚ) : ∀ (i0 k : ℕ),
    k < v.length → i0 + k ∈ c.boundary_nodes →
    (set_bc_go c t i0 v).getD k 0 = c.bc t (i0 + k) := by
  induction v with
  | nil => intro i0 k hk _; simp at hk
  | cons a rest ih =>
    intro i0 k hk hmem
    cases k with
    | zero =>
      simp only [Nat.add_zero] at hmem
      simp [set_bc_go, hmem]
    | succ m =>
      have hm : (i0 + 1) + m ∈ c.boundary_nodes := by
        have : i0 + (m + 1) = (i0 + 1) + m := by omega
        rwa [this] at hmem
      have hmlt : m < rest.length := by simpa using hk
      have := ih (i0 + 1) m hmlt hm
      have harith : (i0 + 1) + m = i0 + (m + 1) := by omega
      rw [harith] at this
      simpa [set_bc_go] using this

/-- Expansion keeps every boundary-slot entry of the boundary-values
list. -/
theorem reduced_to_full_go_getD_boundary (bnodes : List ℕ) (b : List ℚ) : ∀ (i0 : ℕ)
    (r : List ℚ) (k : ℕ), i0 + k ∈ bnodes →
    (reduced_to_full_go bnodes i0 r b).getD k 0 = b.getD k 0 := by
  induction b with
  | nil => intro i0 r k _; simp [reduced_to_full_go]
  | cons bb brest ih =>
    intro i0 r k hmem
    cases k with
    | zero =>
      simp only [Nat.add_zero] at hmem
      simp [reduced_to_full_go, hmem]
    | succ m =>
      have hm : (i0 + 1) + m ∈ bnodes := by
        have : i0 + (m + 1) = (i0 + 1) + m := by omega
        rwa [this] at hmem
      by_cases h : i0 ∈ bnodes
      · simpa [reduced_to_full_go, h] using ih (i0 + 1) r m hm
      · cases r with
        | nil => simpa [reduced_to_full_go, h] using ih (i0 + 1) [] m hm
        | cons x xs => simpa [reduced_to_full_go, h] using ih (i0 + 1) xs m hm

/-- The rhs vector is full-size (non-mixed case, well-sized load). -/
theorem compute_rhs_length (c : Ctx) (s : NLState) (hmix : c.is_mixed = false)
    (hlen : (c.rhs_base s.t).length = c.full_size) :
    (compute_rhs c s).length = c.full_size := by
  unfold compute_rhs
  rw [set_bc_go_length]
  by_cases h : c.is_time_dependent <;>
    simp [hmix, h, vadd, smul, massApply, hlen]

/-- Every boundary row of the computed rhs holds the prescribed boundary
value at the current time. -/
theorem compute_rhs_getD_boundary (c : Ctx) (s : NLState) (i : ℕ)
    (hmix : c.is_mixed = false) (hlen : (c.rhs_base s.t).length = c.full_size)
    (hib : i ∈ c.boundary_nodes) (hisz : i < c.full_size) :
    (compute_rhs c s).getD i 0 = c.bc s.t i := by
  have h0 : ∀ v : List ℚ, v.length = c.full_size →
      (set_bc_go c s.t 0 v).getD i 0 = c.bc s.t i := by
    intro v hv
    have := set_bc_go_getD_boundary c s.t v 0 i (by omega) (by simpa using hib)
    simpa using this
  unfold compute_rhs
  by_cases h : c.is_time_dependent <;>
    · simp only [hmix, Bool.false_eq_true, if_false, h, if_true]
      apply h0
      simp [h, vadd, smul, massApply, hlen]

/-- C9: `reduced_to_full` takes no boundary-values argument — the
boundary slots of every expansion are filled from `current_rhs()`, whose
boundary rows `set_bc` has overwritten with the prescribed boundary
values at the current time; and an operation called on a reduced input
(here `value`) lazily computes and caches the rhs as a side effect. -/
theorem reduced_to_full_uses_current_rhs (c : Ctx) (s : NLState) (r : List ℚ) (i : ℕ)
    (hmix : c.is_mixed = false)
    (hfresh : s.rhs_computed = false)
    (hlen : (c.rhs_base s.t).length = c.full_size)
    (hib : i ∈ c.boundary_nodes)
    (hisz : i < c.full_size) :
    (reduced_to_full c s r).1 =
      reduced_to_full_go c.boundary_nodes 0 r (current_rhs c s).1 ∧
    (reduced_to_full c s r).1.getD i 0 = c.bc s.t i ∧
    (reduced_to_full c s r).2.rhs_computed = true ∧
    (reduced_to_full c s r).2.current_rhs_cache = compute_rhs c s ∧
    (r.length = c.reduced_size → (value c s r).2 = (reduced_to_full c s r).2) := by
  refine ⟨rfl, ?_, ?_, ?_, ?_⟩
  · have h1 : (current_rhs c s).1 = compute_rhs c s := by simp [current_rhs, hfresh]
    have h2 := reduced_to_full_go_getD_boundary c.boundary_nodes (compute_rhs c s) 0 r i
      (by simpa using hib)
    calc (reduced_to_full c s r).1.getD i 0
        = (compute_rhs c s).getD i 0 := by
          simpa [reduced_to_full, h1] using h2
      _ = c.bc s.t i := compute_rhs_getD_boundary c s i hmix hlen hib hisz
  · simp [reduced_to_full, current_rhs, hfresh]
  · simp [reduced_to_full, current_rhs, hfresh]
  · intro hr
    simp [value, value_p, expand, hr]

/-- Witness for C9 at the concrete context: boundary index 0, reduced
input `[3]`; the expansion carries the prescribed value `5` at slot 0. -/
theorem reduced_to_full_uses_current_rhs_witness :
    (reduced_to_full baseCtx baseState [3]).1.getD 0 0 = baseCtx.bc baseState.t 0 :=
  (reduced_to_full_uses_current_rhs baseCtx baseState [3] 0 rfl rfl (by decide) (by decide)
    (by decide)).2.1

/-- C3 (counterexample): `value` at a full-length vector differs from
`value` at its reduced projection, because re-expansion fills the
boundary slot from the rhs (prescribed value `5`), not from the original
full vector (entry `7`): `value [7,3] = 7` but
`value (full_to_reduced [7,3]) = value [3] = 5`. -/
theorem input_size_transparency_cex :
    (value baseCtx baseState [7, 3]).1 ≠
      (value baseCtx baseState (full_to_reduced baseCtx [7, 3])).1 := by
  norm_num [value, value_p, expand, full_to_reduced, full_to_reduced_aux, full_to_reduced_go,
    reduced_to_full, current_rhs, compute_rhs, set_bc_go, reduced_to_full_go, Ctx.reduced_size,
    Ctx.full_size, baseCtx, baseState, dot, vadd, vsub, smul, massApply, disable_collision,
    barrier_weight]

/-- Computing the rhs does not change the timestep state, the time or
the stiffness cache. -/
theorem current_rhs_frame (c : Ctx) (s : NLState) :
    (current_rhs c s).2.t = s.t ∧ (current_rhs c s).2.x_prev = s.x_prev ∧
    (current_rhs c s).2.v_prev = s.v_prev ∧ (current_rhs c s).2.dt = s.dt ∧
    (current_rhs c s).2.cached_stiffness = s.cached_stiffness := by
  by_cases h : s.rhs_computed <;> simp [current_rhs, h]

/-- Recomputing the rhs in the state left by `current_rhs` returns the
cached value and state unchanged. -/
theorem current_rhs_idem (c : Ctx) (s : NLState) :
    current_rhs c (current_rhs c s).2 = current_rhs c s := by
  by_cases h : s.rhs_computed <;> simp [current_rhs, h]

/-- The stiffness cache computed after a rhs update is the one computed
before it. -/
theorem compute_cached_stiffness_current_rhs (c : Ctx) (s : NLState) :
    (compute_cached_stiffness c (current_rhs c s).2).cached_stiffness =
      (compute_cached_stiffness c s).cached_stiffness := by
  cases hcs : s.cached_stiffness <;> by_cases h : s.rhs_computed <;>
    by_cases hl : c.is_linear <;>
    simp [current_rhs, h, compute_cached_stiffness, hcs, hl]

/-- A vector that is not of reduced length is used as the full vector. -/
theorem expand_of_ne (c : Ctx) (s : NLState) (x : List ℚ) (h : ¬x.length = c.reduced_size) :
    expand c s x = (x, s) := by
  simp [expand, h]

/-- A vector of reduced length is expanded. -/
theorem expand_of_eq (c : Ctx) (s : NLState) (x : List ℚ) (h : x.length = c.reduced_size) :
    expand c s x = reduced_to_full c s x := by
  simp [expand, h]

/-- C3 (amended): `value`, `gradient` and `hessian` give identical
results on a reduced vector `r` and on the full-length vector the code
itself expands `r` to (whose boundary entries are the current-rhs
values); the spec's transparency property holds in this form, not for an
arbitrary full-length vector. -/
theorem input_size_transparency (c : Ctx) (s : NLState) (r : List ℚ)
    (h1 : r.length = c.reduced_size)
    (h2 : c.reduced_size < c.full_size)
    (hmix : c.is_mixed = false)
    (hlen : (c.rhs_base s.t).length = c.full_size)
    (hcache : s.rhs_computed = true → s.current_rhs_cache.length = c.full_size) :
    (value c s (reduced_to_full c s r).1).1 = (value c s r).1 ∧
    (gradient c s (reduced_to_full c s r).1).1 = (gradient c s r).1 ∧
    (hessian c s (reduced_to_full c s r).1).1 = (hessian c s r).1 := by
  have hRlen : (current_rhs c s).1.length = c.full_size := by
    by_cases h : s.rhs_computed
    · simpa [current_rhs, h] using hcache h
    · simpa [current_rhs, h] using compute_rhs_length c s hmix hlen
  have hFlen : (reduced_to_full c s r).1.length = c.full_size := by
    show (reduced_to_full_go c.boundary_nodes 0 r (current_rhs c s).1).length = c.full_size
    rw [reduced_to_full_go_length, hRlen]
  have hne : ¬(reduced_to_full c s r).1.length = c.reduced_size := by omega
  have e1 : expand c s (reduced_to_full c s r).1 = ((reduced_to_full c s r).1, s) :=
    expand_of_ne c s _ hne
  have e2 : expand c s r = ((reduced_to_full c s r).1, (current_rhs c s).2) :=
    expand_of_eq c s r h1
  have e3 : expand c (current_rhs c s).2 r =
      ((reduced_to_full c s r).1, (current_rhs c s).2) := by
    rw [expand_of_eq _ _ r h1]
    simp [reduced_to_full, current_rhs_idem]
  have e4 : current_rhs c (current_rhs c s).2 = current_rhs c s := current_rhs_idem c s
  refine ⟨?_, ?_, ?_⟩
  · simp only [value, value_p, e1, e2]
  · by_cases ht : c.is_time_dependent <;>
      simp [gradient, gradient_p, gradient_no_rhs_p, e1, e2, e3, e4, ht, disable_collision]
  · by_cases hl : c.is_linear <;> by_cases ht : c.is_time_dependent <;>
      simp [hessian, hessian_p, hessian_full_p, e1, e2, compute_cached_stiffness_current_rhs,
        hl, ht, disable_collision]

/-- Witness for the amended C3 at the concrete context, reduced input
`[3]`. -/
theorem input_size_transparency_witness :
    (value baseCtx baseState (reduced_to_full baseCtx baseState [3]).1).1 =
      (value baseCtx baseState [3]).1 :=
  (input_size_transparency baseCtx baseState [3] (by decide) (by decide) rfl (by decide)
    (by decide)).1

end PolyfemProof
